import Mathlib

/-!
Verification of the metric-computation layer of the messaging-analytics
repository (iMessage/WhatsApp "wrapped" scripts and the two texts dashboards).

The Lean definitions below are shallow embeddings of the SQL queries and the
Python post-processing in the source files:
  - `imessage_wrapped.py` / `whatsapp_wrapped.py`: `analyze`
  - `texts_dashboard.py` / `texts_dashboard_enhanced.py`:
    `check_access`, `get_all_imessage_data`

Messages are embedded as records of a unix-seconds timestamp and a sent flag;
per-conversation chronological message lists stand for the SQL
`PARTITION BY ... ORDER BY date` streams.  SQLite floats are embedded as `ℚ`,
Python `round` as round-half-to-even, Python `int()` on a non-negative value
as `Int.floor`.
-/

/-- A canonical message record: unix-seconds timestamp and direction
(`fromMe = true` embeds `is_from_me = 1` / `ZISFROMME = 1`). -/
structure Msg where
  ts : ℤ
  fromMe : Bool
deriving DecidableEq, Repr

/-- Python 3 `round` to zero decimal places on an exact rational value:
round half to even (banker's rounding). -/
def pyRoundQ (x : ℚ) : ℤ :=
  let n := ⌊x⌋
  let f := x - n
  if f < 1 / 2 then n
  else if 1 / 2 < f then n + 1
  else if n % 2 = 0 then n else n + 1

/-- Python 3 `round(x, 2)` on an exact rational value. -/
def round2 (x : ℚ) : ℚ := (pyRoundQ (x * 100) : ℚ) / 100

/-- The per-contact `ratio` field of the dashboards' ConversationRollup:
`round(sent / max(received, 1), 2)` (texts_dashboard.py line 184/194,
texts_dashboard_enhanced.py line 171). -/
def derivedRatio (sent received : ℕ) : ℚ :=
  round2 ((sent : ℚ) / ((max received 1 : ℕ) : ℚ))

/-- The smoothing ratio the spec describes for the rollup:
`sent / (received + 1)`. -/
def specRatio (sent received : ℕ) : ℚ := (sent : ℚ) / ((received : ℚ) + 1)

/-- The personality decision list from `analyze`
(imessage_wrapped.py lines 287-297, whatsapp_wrapped.py lines 272-282):
an `if/elif` chain, first match wins. -/
def personality (hour : ℕ) (resp : ℤ) (ratio : ℚ) (starter : ℤ) :
    String × String :=
  if hour < 5 ∨ hour > 22 then ("NOCTURNAL MENACE", "terrorizes people at ungodly hours")
  else if resp < 5 then ("TERMINALLY ONLINE", "has never touched grass")
  else if resp > 120 then ("TOO COOL TO REPLY", "leaves everyone on read")
  else if ratio < 1 / 2 then ("POPULAR (ALLEGEDLY)", "everyone wants a piece")
  else if ratio > 2 then ("THE YAPPER", "carries every conversation alone")
  else if starter > 65 then ("CONVERSATION STARTER", "always making the first move")
  else if starter < 35 then ("THE WAITER", "never texts first, ever")
  else ("SUSPICIOUSLY NORMAL", "no notes. boring but stable.")

/-- `check_access` of texts_dashboard.py (lines 99-123) and
texts_dashboard_enhanced.py (lines 98-121): each store contributes a flag
(`has_imessage = file exists ∧ test query succeeds`,
`has_whatsapp = a path is found ∧ test query succeeds`); the run exits
fatally (`none`) exactly when both flags are false, otherwise the pair of
flags is returned and the computation proceeds with the accessible stores. -/
def check_access (imExists imReadable waFound waReadable : Bool) :
    Option (Bool × Bool) :=
  let has_imessage := imExists && imReadable
  let has_whatsapp := waFound && waReadable
  if !has_imessage && !has_whatsapp then none
  else some (has_imessage, has_whatsapp)

/-- `pyRoundQ` of an integer is that integer. -/
theorem pyRoundQ_intCast (m : ℤ) : pyRoundQ (m : ℚ) = m := by
  unfold pyRoundQ
  rw [Int.floor_intCast]
  norm_num

/-- C1 counterexample: at `sent = 1, received = 1` the dashboards' rollup
ratio is `round(1 / max(1,1), 2) = 1`, while the claimed
`sent/(received+1)` smoothing gives `1/2`. -/
theorem c1_counterexample :
    derivedRatio 1 1 = 1 ∧ specRatio 1 1 = 1 / 2 ∧
      derivedRatio 1 1 ≠ specRatio 1 1 := by
  refine ⟨?_, ?_, ?_⟩ <;>
    norm_num [derivedRatio, specRatio, round2, pyRoundQ, Int.floor_intCast]

/-- C1 (amended): the rollup ratio field equals
`round(sent / max(received, 1), 2)`; it agrees with the `received + 1`
smoothing denominator only in the `received = 0` case, where it equals
`sent` exactly. -/
theorem c1_theorem (s r : ℕ) :
    (r = 0 → derivedRatio s r = (s : ℚ)) ∧
      (0 < r → derivedRatio s r = round2 ((s : ℚ) / (r : ℚ))) := by
  constructor
  · rintro rfl
    unfold derivedRatio round2
    have h1 : ((max 0 1 : ℕ) : ℚ) = 1 := by norm_num
    rw [h1, div_one]
    have h2 : (s : ℚ) * 100 = ((100 * s : ℤ) : ℚ) := by push_cast; ring
    rw [h2, pyRoundQ_intCast]
    push_cast
    ring
  · intro hr
    unfold derivedRatio
    have h : max r 1 = r := Nat.max_eq_left hr
    rw [h]

/-- C1 witness: the amended characterization at concrete inputs. -/
theorem c1_witness :
    derivedRatio 3 0 = (3 : ℚ) ∧ derivedRatio 7 2 = round2 ((7 : ℚ) / 2) :=
  ⟨(c1_theorem 3 0).1 rfl, (c1_theorem 7 2).2 (by norm_num)⟩

/-- C7: with peak hour 2 and response time 3 minutes, the first rule of the
decision list (hour < 5) fires, so the label is NOCTURNAL MENACE for every
ratio and starter percentage; the TERMINALLY ONLINE rule is never reached. -/
theorem c7_theorem (ratio : ℚ) (starter : ℤ) :
    personality 2 3 ratio starter =
      ("NOCTURNAL MENACE", "terrorizes people at ungodly hours") := by
  unfold personality
  norm_num

/-- C9: the run is fatal (`none`) iff both stores are inaccessible; whenever
at least one store opens and reads successfully the computation proceeds and
returns exactly the accessibility flags of the two stores. -/
theorem c9_theorem (ie ir wf wr : Bool) :
    (check_access ie ir wf wr = none ↔ ((ie && ir) = false ∧ (wf && wr) = false)) ∧
      ((ie && ir) = true ∨ (wf && wr) = true →
        check_access ie ir wf wr = some (ie && ir, wf && wr)) := by
  revert ie ir wf wr
  decide

/-- C9 witness: with iMessage accessible and WhatsApp missing, the run
proceeds with the iMessage store only. -/
theorem c9_witness : check_access true true false false = some (true, false) :=
  (c9_theorem true true false false).2 (Or.inl rfl)

/-- Lower bound for Python rounding: a non-negative value rounds to a
non-negative integer. -/
theorem pyRoundQ_nonneg {x : ℚ} (hx : 0 ≤ x) : 0 ≤ pyRoundQ x := by
  have hn : 0 ≤ ⌊x⌋ := Int.floor_nonneg.mpr hx
  simp only [pyRoundQ]
  split_ifs <;> omega

/-- Upper bound for Python rounding: a value at most an integer `m` rounds
to at most `m`. -/
theorem pyRoundQ_le {x : ℚ} {m : ℤ} (hx : x ≤ (m : ℚ)) : pyRoundQ x ≤ m := by
  have hn : ⌊x⌋ ≤ m := by
    have := Int.floor_le_floor hx
    rwa [Int.floor_intCast] at this
  simp only [pyRoundQ]
  split_ifs with h1 h2 h3
  · exact hn
  · have hlt : (⌊x⌋ : ℚ) < x := by
      have : (1 : ℚ) / 2 ≤ x - ⌊x⌋ := le_of_not_lt h1
      linarith
    have : ⌊x⌋ < m := by exact_mod_cast lt_of_lt_of_le hlt hx
    omega
  · exact hn
  · have hlt : (⌊x⌋ : ℚ) < x := by
      have : (1 : ℚ) / 2 ≤ x - ⌊x⌋ := le_of_not_lt h1
      linarith
    have : ⌊x⌋ < m := by exact_mod_cast lt_of_lt_of_le hlt hx
    omega

/-- Reply-gap scan of the response-time query
(imessage_wrapped.py lines 195-218, whatsapp_wrapped.py lines 190-209):
walking one conversation's chronological stream, a gap `ts - prev_ts` is
recorded whenever the current message is sent, the previous one is received,
and the gap is strictly between 10 and 86400 seconds. -/
def replyGapsGo (prev : Msg) : List Msg → List ℤ
  | [] => []
  | m :: rest =>
      (if m.fromMe = true ∧ prev.fromMe = false ∧
          10 < m.ts - prev.ts ∧ m.ts - prev.ts < 86400
       then [m.ts - prev.ts] else []) ++ replyGapsGo m rest

/-- Reply gaps of one conversation; the first message has no `LAG` row. -/
def replyGaps : List Msg → List ℤ
  | [] => []
  | m :: rest => replyGapsGo m rest

/-- All qualifying reply gaps across the one-to-one conversations. -/
def allGaps (convs : List (List Msg)) : List ℤ :=
  (convs.map replyGaps).flatten

/-- `d['resp'] = int(r[0][0] or 30)` over `AVG(ts - pt) / 60.0`: the mean of
all qualifying gaps in minutes, truncated by Python `int()` (toward zero,
i.e. `Int.floor` on this non-negative value), defaulting to 30 when the SQL
aggregate is NULL (no rows) or the falsy value 0.0. -/
def resp_minutes (convs : List (List Msg)) : ℤ :=
  let gs := allGaps convs
  if gs.length = 0 then 30
  else
    let a : ℚ := ((gs.sum : ℚ) / (gs.length : ℚ)) / 60
    if a = 0 then 30 else ⌊a⌋

/-- Every recorded reply gap exceeds 10 seconds. -/
theorem mem_replyGapsGo_gt :
    ∀ (l : List Msg) (prev : Msg) (g : ℤ), g ∈ replyGapsGo prev l → 10 < g := by
  intro l
  induction l with
  | nil => intro prev g hg; simp [replyGapsGo] at hg
  | cons m rest ih =>
    intro prev g hg
    rcases List.mem_append.mp hg with h | h
    · split_ifs at h with hc
      · rcases List.mem_singleton.mp h with rfl
        exact hc.2.2.1
      · simp at h
    · exact ih m g h

/-- Every gap collected across conversations exceeds 10 seconds. -/
theorem mem_allGaps_gt (convs : List (List Msg)) (g : ℤ)
    (hg : g ∈ allGaps convs) : 10 < g := by
  rcases List.mem_flatten.mp hg with ⟨l, hl, hgl⟩
  rcases List.mem_map.mp hl with ⟨c, _, rfl⟩
  cases c with
  | nil => simp [replyGaps] at hgl
  | cons m rest => exact mem_replyGapsGo_gt rest m g hgl

/-- C2 counterexample: a received message at t = 0 answered at t = 100 gives
one qualifying gap of 100 s; the code returns `int(100/60) = 1` minute, not
the round-to-nearest value 2 the claim requires. -/
theorem c2_counterexample :
    resp_minutes [[⟨0, false⟩, ⟨100, true⟩]] = 1 ∧
      pyRoundQ (((allGaps [[⟨0, false⟩, ⟨100, true⟩]]).sum : ℚ) /
        ((allGaps [[⟨0, false⟩, ⟨100, true⟩]]).length : ℚ) / 60) = 2 ∧
      resp_minutes [[⟨0, false⟩, ⟨100, true⟩]] ≠
        pyRoundQ (((allGaps [[⟨0, false⟩, ⟨100, true⟩]]).sum : ℚ) /
          ((allGaps [[⟨0, false⟩, ⟨100, true⟩]]).length : ℚ) / 60) := by
  have hg : allGaps [[⟨0, false⟩, ⟨100, true⟩]] = [100] := by
    simp [allGaps, replyGaps, replyGapsGo]
  have ha : ((100 : ℚ) / 1) / 60 = 5 / 3 := by norm_num
  have hfloor : ⌊(5 / 3 : ℚ)⌋ = 1 := by
    rw [Int.floor_eq_iff]
    constructor <;> norm_num
  have h1 : resp_minutes [[⟨0, false⟩, ⟨100, true⟩]] = 1 := by
    simp only [resp_minutes, hg]
    norm_num [hfloor]
  have h2 : pyRoundQ (((allGaps [[⟨0, false⟩, ⟨100, true⟩]]).sum : ℚ) /
      ((allGaps [[⟨0, false⟩, ⟨100, true⟩]]).length : ℚ) / 60) = 2 := by
    rw [hg]
    show pyRoundQ (((100 : ℚ)) / (1 : ℚ) / 60) = 2
    rw [ha]
    simp only [pyRoundQ, hfloor]
    norm_num
  exact ⟨h1, h2, by rw [h1, h2]; decide⟩

/-- C2 (amended): the response-time metric is non-negative, returns exactly
30 when no qualifying reply pair exists, and otherwise equals the mean gap in
minutes truncated to an integer (floor), not rounded to nearest. -/
theorem c2_theorem (convs : List (List Msg)) :
    0 ≤ resp_minutes convs ∧
      (allGaps convs = [] → resp_minutes convs = 30) ∧
      (allGaps convs ≠ [] →
        resp_minutes convs =
          ⌊((allGaps convs).sum : ℚ) / ((allGaps convs).length : ℚ) / 60⌋) := by
  by_cases he : allGaps convs = []
  · refine ⟨?_, fun _ => ?_, fun hne => absurd he hne⟩ <;>
      simp [resp_minutes, he]
  · have hlen : (allGaps convs).length ≠ 0 := by
      simpa [List.length_eq_zero] using he
    have hsum : (0 : ℤ) < (allGaps convs).sum :=
      List.sum_pos _ (fun g hg => lt_trans (by norm_num) (mem_allGaps_gt convs g hg)) he
    have hsumQ : (0 : ℚ) < ((allGaps convs).sum : ℚ) := by exact_mod_cast hsum
    have hlenQ : (0 : ℚ) < ((allGaps convs).length : ℚ) := by
      exact_mod_cast Nat.pos_of_ne_zero hlen
    have hapos : (0 : ℚ) <
        ((allGaps convs).sum : ℚ) / ((allGaps convs).length : ℚ) / 60 :=
      div_pos (div_pos hsumQ hlenQ) (by norm_num)
    have hane : (((allGaps convs).sum : ℚ) / ((allGaps convs).length : ℚ) / 60) ≠ 0 :=
      ne_of_gt hapos
    refine ⟨?_, fun h => absurd h he, fun _ => ?_⟩
    · simp only [resp_minutes, if_neg hlen, if_neg hane]
      exact Int.floor_nonneg.mpr hapos.le
    · simp only [resp_minutes, if_neg hlen, if_neg hane]

/-- C2 witness: the amended theorem evaluated at the one-pair input. -/
theorem c2_witness :
    resp_minutes [[⟨0, false⟩, ⟨100, true⟩]] =
      ⌊((allGaps [[⟨0, false⟩, ⟨100, true⟩]]).sum : ℚ) /
        ((allGaps [[⟨0, false⟩, ⟨100, true⟩]]).length : ℚ) / 60⌋ :=
  (c2_theorem [[⟨0, false⟩, ⟨100, true⟩]]).2.2 (by
    simp [allGaps, replyGaps, replyGapsGo])

/-- Session-opener scan of the conversation-starter query
(imessage_wrapped.py lines 254-285, whatsapp_wrapped.py lines 243-270):
within one conversation's chronological stream, a message opens a session
when the gap since the previous message exceeds 14400 seconds. -/
def openersGo (prev : Msg) : List Msg → List Msg
  | [] => []
  | m :: rest =>
      (if 14400 < m.ts - prev.ts then [m] else []) ++ openersGo m rest

/-- Session openers of one conversation: the first message (`prev_ts IS
NULL`) always opens a session. -/
def openers : List Msg → List Msg
  | [] => []
  | m :: rest => m :: openersGo m rest

/-- All session-opening messages across the one-to-one conversations. -/
def allOpeners (convs : List (List Msg)) : List Msg :=
  (convs.map openers).flatten

/-- `d['starter_pct']`: `round((you_started / total) * 100)` over the session
boundaries, defaulting to 50 when there are zero boundaries. -/
def starter_pct (convs : List (List Msg)) : ℤ :=
  let ops := allOpeners convs
  if ops.length = 0 then 50
  else pyRoundQ ((((ops.filter (fun m => m.fromMe)).length : ℚ) /
    (ops.length : ℚ)) * 100)

/-- C6: the conversation-starter percentage is always within [0, 100] and is
exactly 50 when the session partition is empty; on a non-empty partition it
is the Python-rounded share of user-opened sessions. -/
theorem c6_theorem (convs : List (List Msg)) :
    (0 ≤ starter_pct convs ∧ starter_pct convs ≤ 100) ∧
      (allOpeners convs = [] → starter_pct convs = 50) ∧
      (allOpeners convs ≠ [] →
        starter_pct convs =
          pyRoundQ (((((allOpeners convs).filter (fun m => m.fromMe)).length : ℚ) /
            ((allOpeners convs).length : ℚ)) * 100)) := by
  by_cases he : allOpeners convs = []
  · refine ⟨?_, fun _ => ?_, fun hne => absurd he hne⟩ <;>
      simp [starter_pct, he]
  · have hlen : (allOpeners convs).length ≠ 0 := by
      simpa [List.length_eq_zero] using he
    have hlenQ : (0 : ℚ) < ((allOpeners convs).length : ℚ) := by
      exact_mod_cast Nat.pos_of_ne_zero hlen
    have hfil : ((allOpeners convs).filter (fun m => m.fromMe)).length ≤
        (allOpeners convs).length := List.length_filter_le _ _
    have hx0 : (0 : ℚ) ≤
        ((((allOpeners convs).filter (fun m => m.fromMe)).length : ℚ) /
          ((allOpeners convs).length : ℚ)) * 100 := by
      have : (0 : ℚ) ≤ (((allOpeners convs).filter (fun m => m.fromMe)).length : ℚ) := by
        positivity
      have hdiv := div_nonneg this hlenQ.le
      linarith
    have hx100 : ((((allOpeners convs).filter (fun m => m.fromMe)).length : ℚ) /
        ((allOpeners convs).length : ℚ)) * 100 ≤ ((100 : ℤ) : ℚ) := by
      have hle1 : (((allOpeners convs).filter (fun m => m.fromMe)).length : ℚ) /
          ((allOpeners convs).length : ℚ) ≤ 1 := by
        rw [div_le_one hlenQ]
        exact_mod_cast hfil
      push_cast
      linarith
    refine ⟨⟨?_, ?_⟩, fun h => absurd h he, fun _ => ?_⟩
    · simp only [starter_pct, if_neg hlen]
      exact pyRoundQ_nonneg hx0
    · simp only [starter_pct, if_neg hlen]
      exact pyRoundQ_le hx100
    · simp only [starter_pct, if_neg hlen]

/-- C6 witness: the theorem evaluated at an empty record set and at a
two-session conversation. -/
theorem c6_witness :
    starter_pct [] = 50 ∧
      starter_pct [[⟨0, true⟩, ⟨100000, false⟩]] =
        pyRoundQ (((((allOpeners [[⟨0, true⟩, ⟨100000, false⟩]]).filter
          (fun m => m.fromMe)).length : ℚ) /
          ((allOpeners [[⟨0, true⟩, ⟨100000, false⟩]]).length : ℚ)) * 100) :=
  ⟨(c6_theorem []).2.1 rfl,
    (c6_theorem [[⟨0, true⟩, ⟨100000, false⟩]]).2.2 (by
      simp [allOpeners, openers, openersGo])⟩

/-- A message row with its text, as the word-count queries see it
(`is_from_me` flag and nullable `text` / `ZTEXT`). -/
structure TextMsg where
  fromMe : Bool
  text : Option (List Char)

/-- SQL `TRIM(text)`: strip leading and trailing space characters. -/
def trimChars (l : List Char) : List Char :=
  ((l.dropWhile (fun c => c = ' ')).reverse.dropWhile (fun c => c = ' ')).reverse

/-- `LENGTH(s) - LENGTH(REPLACE(s, ' ', ''))`: the number of space
characters in `s`. -/
def countSpaces (l : List Char) : ℕ :=
  (l.filter (fun c => c = ' ')).length

/-- The reaction prefixes excluded by the iMessage word-count query
(`text NOT LIKE 'Loved "%'` and the five analogous patterns). -/
def reactionPrefixes : List (List Char) :=
  [['L', 'o', 'v', 'e', 'd', ' ', '"'],
   ['L', 'i', 'k', 'e', 'd', ' ', '"'],
   ['D', 'i', 's', 'l', 'i', 'k', 'e', 'd', ' ', '"'],
   ['L', 'a', 'u', 'g', 'h', 'e', 'd', ' ', 'a', 't', ' ', '"'],
   ['E', 'm', 'p', 'h', 'a', 's', 'i', 'z', 'e', 'd', ' ', '"'],
   ['Q', 'u', 'e', 's', 't', 'i', 'o', 'n', 'e', 'd', ' ', '"']]

/-- ASCII case folding as SQLite's default `LIKE` applies it: the letters
A-Z fold to lowercase, every other character is unchanged. -/
def likeFoldChar (c : Char) : Char :=
  if 'A' ≤ c ∧ c ≤ 'Z' then Char.ofNat (c.toNat + 32) else c

/-- Whether a text starts with one of the reaction prefixes.  SQLite's
default `LIKE` is case-insensitive over ASCII, so pattern and text are both
case-folded before the prefix test. -/
def isReaction (l : List Char) : Bool :=
  reactionPrefixes.any (fun p =>
    List.isPrefixOf (p.map likeFoldChar) (l.map likeFoldChar))

/-- `d['words']` of imessage_wrapped.py (lines 229-244): over sent messages
with non-null text whose trim is non-blank and which match no reaction
prefix, sum `(spaces in TRIM(text)) + 1`. -/
def wordCount_im : List TextMsg → ℕ
  | [] => 0
  | m :: rest =>
      (match m.text with
       | none => 0
       | some t =>
           if m.fromMe && !(trimChars t).isEmpty && !isReaction t then
             countSpaces (trimChars t) + 1
           else 0) + wordCount_im rest

/-- `d['words']` of whatsapp_wrapped.py (lines 221-233): `msg_count +
extra_words` over sent messages with non-null text of positive length —
one plus the number of (untrimmed) spaces per message, with no reaction
exclusion. -/
def wordCount_wa : List TextMsg → ℕ
  | [] => 0
  | m :: rest =>
      (match m.text with
       | none => 0
       | some t =>
           if m.fromMe && !t.isEmpty then countSpaces t + 1
           else 0) + wordCount_wa rest

/-- C3 counterexample: the sent WhatsApp text `Loved "x"` matches a reaction
prefix, yet the WhatsApp word count gives it 2 tokens instead of the claimed
0; the iMessage count does exclude it, as it does the case-variant
`loved "x"` (`LIKE` is case-insensitive). -/
theorem c3_counterexample :
    isReaction ['L', 'o', 'v', 'e', 'd', ' ', '"', 'x', '"'] = true ∧
      wordCount_wa [⟨true, some ['L', 'o', 'v', 'e', 'd', ' ', '"', 'x', '"']⟩] = 2 ∧
      wordCount_im [⟨true, some ['L', 'o', 'v', 'e', 'd', ' ', '"', 'x', '"']⟩] = 0 ∧
      isReaction ['l', 'o', 'v', 'e', 'd', ' ', '"', 'x', '"'] = true ∧
      wordCount_im [⟨true, some ['l', 'o', 'v', 'e', 'd', ' ', '"', 'x', '"']⟩] = 0 ∧
      wordCount_wa [⟨true, some ['L', 'o', 'v', 'e', 'd', ' ', '"', 'x', '"']⟩] ≠ 0 := by
  refine ⟨by decide, by decide, by decide, by decide, by decide, by decide⟩

/-- C3 (amended): the claimed per-message token rule (interior spaces after
trimming plus one, with null, blank and reaction texts contributing zero)
holds for the iMessage store only; the WhatsApp store contributes
`1 + (count of all spaces, untrimmed)` for every sent non-empty text, with
no reaction-prefix exclusion and no trimming. -/
theorem c3_theorem (t : List Char) (rest : List TextMsg) :
    (wordCount_im (⟨true, none⟩ :: rest) = wordCount_im rest) ∧
      (isReaction t = true →
        wordCount_im (⟨true, some t⟩ :: rest) = wordCount_im rest) ∧
      (trimChars t = [] →
        wordCount_im (⟨true, some t⟩ :: rest) = wordCount_im rest) ∧
      (isReaction t = false → trimChars t ≠ [] →
        wordCount_im (⟨true, some t⟩ :: rest) =
          countSpaces (trimChars t) + 1 + wordCount_im rest) ∧
      (wordCount_wa (⟨true, some t⟩ :: rest) =
        (if t = [] then 0 else countSpaces t + 1) + wordCount_wa rest) := by
  refine ⟨by simp [wordCount_im], ?_, ?_, ?_, ?_⟩
  · intro h
    simp [wordCount_im, h]
  · intro h
    simp [wordCount_im, h]
  · intro h1 h2
    cases hl : trimChars t with
    | nil => exact absurd hl h2
    | cons a l =>
      simp [wordCount_im, h1, hl]
  · cases t with
    | nil => simp [wordCount_wa]
    | cons a l => simp [wordCount_wa]

/-- C3 witness: the amended characterization at the reaction text and at a
plain two-word text. -/
theorem c3_witness :
    wordCount_im [(⟨true, some ['L', 'o', 'v', 'e', 'd', ' ', '"', 'x', '"']⟩ : TextMsg)] =
      wordCount_im [] ∧
      wordCount_im [(⟨true, some ['h', 'i', ' ', 'y', 'o', 'u']⟩ : TextMsg)] =
        countSpaces (trimChars ['h', 'i', ' ', 'y', 'o', 'u']) + 1 + wordCount_im [] :=
  ⟨( c3_theorem ['L', 'o', 'v', 'e', 'd', ' ', '"', 'x', '"'] []).2.1 (by decide),
    ( c3_theorem ['h', 'i', ' ', 'y', 'o', 'u'] []).2.2.2.1 (by decide) (by decide)⟩

/-- A grouped one-to-one conversation as the trend queries see it: a handle
identifier and the conversation's message rows. -/
structure GConv where
  cid : ℕ
  msgs : List Msg
deriving DecidableEq

/-- H1 received count `b` of the ghosted query: received messages with
`lo < ts` (the query's WHERE filter) and `ts < ts_jun`. -/
def h1recv (lo jun : ℤ) (c : GConv) : ℕ :=
  (c.msgs.filter (fun m => decide (m.fromMe = false ∧ lo < m.ts ∧ m.ts < jun))).length

/-- H2 received count `a` of the ghosted query: received messages with
`lo < ts` and `jun ≤ ts`. -/
def h2recv (lo jun : ℤ) (c : GConv) : ℕ :=
  (c.msgs.filter (fun m => decide (m.fromMe = false ∧ lo < m.ts ∧ jun ≤ m.ts))).length

/-- The `HAVING b > 10 AND a < 3` filter of the ghosted query. -/
def ghostedPred (lo jun : ℤ) (c : GConv) : Bool :=
  decide (10 < h1recv lo jun c ∧ h2recv lo jun c < 3)

/-- `ORDER BY b DESC`: a conversation precedes another when its H1 received
count is at least as large. -/
def ghostedR (lo jun : ℤ) (a b : GConv) : Prop :=
  h1recv lo jun b ≤ h1recv lo jun a

instance ghostedRDec (lo jun : ℤ) : DecidableRel (ghostedR lo jun) :=
  fun _ _ => Nat.decLe _ _

instance ghostedRTotal (lo jun : ℤ) : IsTotal GConv (ghostedR lo jun) :=
  ⟨fun a b => le_total (h1recv lo jun b) (h1recv lo jun a)⟩

instance ghostedRTrans (lo jun : ℤ) : IsTrans GConv (ghostedR lo jun) :=
  ⟨fun _ _ _ hab hbc => le_trans hbc hab⟩

/-- The ghosted leaderboard before `LIMIT`: filter by the HAVING clause and
order by H1 received count descending, for a window filter `ts > lo`. -/
def ghostedAll (lo jun : ℤ) (l : List GConv) : List GConv :=
  List.insertionSort (ghostedR lo jun) (l.filter (ghostedPred lo jun))

/-- The iMessage ghosted query (imessage_wrapped.py lines 158-165): its
window filter is `ts > ts_start - 31536000`, one year before the window. -/
def ghosted_im (ts_start ts_jun : ℤ) (l : List GConv) : List GConv :=
  ghostedAll (ts_start - 31536000) ts_jun l

/-- The WhatsApp ghosted query (whatsapp_wrapped.py lines 153-160): its
window filter is `ts > ts_start`. -/
def ghosted_wa (ts_start ts_jun : ℤ) (l : List GConv) : List GConv :=
  ghostedAll ts_start ts_jun l

/-- A conversation whose 11 received messages all predate the window start:
timestamps 0..10 with window start 100 and midpoint 200. -/
def c4conv : GConv :=
  ⟨0, (List.range 11).map (fun k => ⟨(k : ℤ), false⟩)⟩

/-- C4 counterexample: with window start 100, every message of `c4conv` has
timestamp ≤ 100, so under the claimed `timestamp > start` filter it has
H1-received = 0 and must be excluded — yet the iMessage query returns it
(its filter reaches back to `start - 31536000`); the WhatsApp query excludes
it as the claim demands. -/
theorem c4_counterexample :
    ghosted_im 100 200 [c4conv] = [c4conv] ∧
      ghostedPred 100 200 c4conv = false ∧
      ghosted_wa 100 200 [c4conv] = [] := by
  refine ⟨by decide, by decide, by decide⟩

/-- C4 (amended): the ghosted leaderboard contains exactly the conversations
with H1-received > 10 and H2-received < 3, ordered by H1-received
descending — where the H1/H2 counts include messages with
`timestamp > start - 31536000` in the iMessage store and
`timestamp > start` in the WhatsApp store. -/
theorem c4_theorem (lo jun : ℤ) (l : List GConv) :
    (∀ c, c ∈ ghostedAll lo jun l ↔
      (c ∈ l ∧ 10 < h1recv lo jun c ∧ h2recv lo jun c < 3)) ∧
      (ghostedAll lo jun l).Sorted (ghostedR lo jun) ∧
      (∀ s, ghosted_im s jun l = ghostedAll (s - 31536000) jun l ∧
        ghosted_wa s jun l = ghostedAll s jun l) := by
  refine ⟨?_, ?_, fun s => ⟨rfl, rfl⟩⟩
  · intro c
    rw [ghostedAll, List.mem_insertionSort, List.mem_filter]
    simp [ghostedPred]
  · unfold ghostedAll
    exact List.sorted_insertionSort _ _

/-- C4 witness: the membership characterization applied to the pre-window
conversation under the iMessage filter. -/
theorem c4_witness : c4conv ∈ ghostedAll (100 - 31536000) 200 [c4conv] :=
  ((c4_theorem (100 - 31536000) 200 [c4conv]).1 c4conv).mpr
    ⟨by decide, by decide, by decide⟩

/-- A per-conversation rollup row of the fan/simp queries: handle id, sent
count `y` and received count `t`. -/
structure Rollup where
  cid : ℕ
  sent : ℕ
  received : ℕ
deriving DecidableEq

/-- The fan ordering key `t * 1.0 / NULLIF(y, 0)`: SQL NULL (here `⊥`, which
sorts last under `ORDER BY ... DESC`) when `sent = 0`, else
`received / sent`. -/
def fanKey (c : Rollup) : WithBot ℚ :=
  if c.sent = 0 then ⊥ else ((c.received : ℚ) / (c.sent : ℚ) : ℚ)

/-- The `HAVING t > y*2 AND (t+y) > 100` filter of the fan query. -/
def fanPred (c : Rollup) : Bool :=
  decide (2 * c.sent < c.received ∧ 100 < c.sent + c.received)

/-- `ORDER BY (t*1.0/NULLIF(y,0)) DESC` with SQLite NULLs last. -/
def fanR (a b : Rollup) : Prop := fanKey b ≤ fanKey a

instance fanRDec : DecidableRel fanR :=
  fun a b => inferInstanceAs (Decidable (fanKey b ≤ fanKey a))

instance fanRTotal : IsTotal Rollup fanR :=
  ⟨fun a b => le_total (fanKey b) (fanKey a)⟩

instance fanRTrans : IsTrans Rollup fanR :=
  ⟨fun _ _ _ hab hbc => le_trans hbc hab⟩

/-- The biggest-fan leaderboard before `LIMIT`
(imessage_wrapped.py lines 176-183, whatsapp_wrapped.py lines 171-178). -/
def biggestFan (l : List Rollup) : List Rollup :=
  List.insertionSort fanR (l.filter fanPred)

/-- Modelled from the spec: the ordering key the claim asserts,
`received / (sent + 1)`, total on `sent = 0`. -/
def fanSpecKey (c : Rollup) : ℚ := (c.received : ℚ) / ((c.sent : ℚ) + 1)

/-- Modelled from the spec: descending order under `received / (sent+1)`. -/
def fanSpecR (a b : Rollup) : Prop := fanSpecKey b ≤ fanSpecKey a

instance fanSpecRDec : DecidableRel fanSpecR :=
  fun a b => inferInstanceAs (Decidable (fanSpecKey b ≤ fanSpecKey a))

/-- Modelled from the spec: the biggest-fan list as the claim orders it. -/
def biggestFanSpec (l : List Rollup) : List Rollup :=
  List.insertionSort fanSpecR (l.filter fanPred)

/-- C5 counterexample: with A = (sent 0, received 150) and
B = (sent 40, received 120), both pass the fan filter, but the code's
`NULLIF` key makes A's key NULL (⊥) so A sorts last — while the claimed
`received/(sent+1)` key gives A the value 150 and puts it first. -/
theorem c5_counterexample :
    biggestFan [⟨0, 0, 150⟩, ⟨1, 40, 120⟩] = [⟨1, 40, 120⟩, ⟨0, 0, 150⟩] ∧
      biggestFanSpec [⟨0, 0, 150⟩, ⟨1, 40, 120⟩] = [⟨0, 0, 150⟩, ⟨1, 40, 120⟩] ∧
      fanKey ⟨0, 0, 150⟩ = ⊥ ∧
      fanSpecKey ⟨0, 0, 150⟩ = 150 ∧
      biggestFan [⟨0, 0, 150⟩, ⟨1, 40, 120⟩] ≠
        biggestFanSpec [⟨0, 0, 150⟩, ⟨1, 40, 120⟩] := by
  have hKA : fanKey ⟨0, 0, 150⟩ = ⊥ := by simp [fanKey]
  have hKB : fanKey ⟨1, 40, 120⟩ = ((3 : ℚ) : WithBot ℚ) := by
    simp only [fanKey]
    norm_num
  have hAB : ¬ fanR ⟨0, 0, 150⟩ ⟨1, 40, 120⟩ := by
    rw [fanR, hKA, hKB]
    exact WithBot.not_coe_le_bot _
  have hSpecKA : fanSpecKey ⟨0, 0, 150⟩ = 150 := by
    simp only [fanSpecKey]
    norm_num
  have hSpecAB : fanSpecR ⟨0, 0, 150⟩ ⟨1, 40, 120⟩ := by
    simp only [fanSpecR, fanSpecKey]
    norm_num
  have hfil : List.filter fanPred [(⟨0, 0, 150⟩ : Rollup), ⟨1, 40, 120⟩] =
      [⟨0, 0, 150⟩, ⟨1, 40, 120⟩] := by decide
  have h1 : biggestFan [⟨0, 0, 150⟩, ⟨1, 40, 120⟩] =
      [⟨1, 40, 120⟩, ⟨0, 0, 150⟩] := by
    rw [biggestFan, hfil]
    simp [List.insertionSort, List.orderedInsert, if_neg hAB]
  have h2 : biggestFanSpec [⟨0, 0, 150⟩, ⟨1, 40, 120⟩] =
      [⟨0, 0, 150⟩, ⟨1, 40, 120⟩] := by
    rw [biggestFanSpec, hfil]
    simp [List.insertionSort, List.orderedInsert, if_pos hSpecAB]
  refine ⟨h1, h2, hKA, hSpecKA, ?_⟩
  rw [h1, h2]
  decide

/-- C5 (amended): the biggest-fan leaderboard contains exactly the
conversations with `received > 2 × sent` and `sent + received > 100`, and is
ordered descending by `received / sent` with the NULL key of `sent = 0`
conversations sorting last — not by `received / (sent + 1)`. -/
theorem c5_theorem (l : List Rollup) :
    (∀ c, c ∈ biggestFan l ↔
      (c ∈ l ∧ 2 * c.sent < c.received ∧ 100 < c.sent + c.received)) ∧
      (biggestFan l).Sorted fanR := by
  constructor
  · intro c
    rw [biggestFan, List.mem_insertionSort, List.mem_filter]
    simp [fanPred]
  · unfold biggestFan
    exact List.sorted_insertionSort _ _

/-- C5 witness: the sent = 0, received = 150 conversation is a member of its
own fan leaderboard. -/
theorem c5_witness : (⟨0, 0, 150⟩ : Rollup) ∈ biggestFan [⟨0, 0, 150⟩] :=
  ((c5_theorem [⟨0, 0, 150⟩]).1 ⟨0, 0, 150⟩).mpr ⟨by decide, by decide, by decide⟩

/-- The backward walk of the current-streak loop
(whatsapp_wrapped.py lines 310-319): starting at a day, count consecutive
days backwards while each day is in the active-day set. -/
def walkBack (S : Finset ℤ) (d : ℤ) : ℕ :=
  if h : d ∈ S then 1 + walkBack S (d - 1) else 0
termination_by (S.filter (fun x => x ≤ d)).card
decreasing_by
  refine Finset.card_lt_card ((Finset.ssubset_iff_of_subset ?_).mpr ⟨d, ?_, ?_⟩)
  · intro x hx
    simp only [Finset.mem_filter] at hx ⊢
    exact ⟨hx.1, by omega⟩
  · exact Finset.mem_filter.mpr ⟨h, le_refl d⟩
  · intro hmem
    exact absurd (Finset.mem_filter.mp hmem).2 (by omega)

/-- `d['current_streak']`: walk back from today, or from yesterday when
today has no messages (days are embedded as integers). -/
def current_streak (S : Finset ℤ) (today : ℤ) : ℕ :=
  walkBack S (if today ∈ S then today else today - 1)

/-- The longest-streak fold (whatsapp_wrapped.py lines 321-333): over the
ascending active dates, extend the running streak when the next date is
exactly one day later, else restart at 1, tracking the maximum. -/
def streakGo : List ℤ → ℤ → ℕ → ℕ → ℕ
  | [], _, _, longest => longest
  | d :: rest, prev, cur, longest =>
      let c := if d - prev = 1 then cur + 1 else 1
      streakGo rest d c (max longest c)

/-- `d['longest_streak']`: the fold over the sorted active dates, starting
with streak 1 at the first date; 0 when there are no active dates. -/
def longest_streak (S : Finset ℤ) : ℕ :=
  match S.sort (· ≤ ·) with
  | [] => 0
  | d :: rest => streakGo rest d 1 1

/-- Unfolding `walkBack` on an active day. -/
theorem walkBack_of_mem {S : Finset ℤ} {d : ℤ} (h : d ∈ S) :
    walkBack S d = 1 + walkBack S (d - 1) := by
  rw [walkBack]
  simp [h]

/-- Unfolding `walkBack` on an inactive day. -/
theorem walkBack_of_not_mem {S : Finset ℤ} {d : ℤ} (h : d ∉ S) :
    walkBack S d = 0 := by
  rw [walkBack]
  simp [h]

/-- Invariant of the longest-streak fold: when the list still to be
processed holds exactly the active dates above `prev`, the running streak
equals the backward walk from `prev`, and the accumulated maximum already
dominates the backward walk of every processed target, the fold's result
dominates the backward walk of every active date. -/
theorem streakGo_ge (S : Finset ℤ) (tgt : ℤ) (htgt : tgt ∈ S) :
    ∀ (l : List ℤ) (prev : ℤ) (longest : ℕ),
      (∀ x ∈ l, x ∈ S) →
      (∀ x ∈ S, x ≤ prev ∨ x ∈ l) →
      l.Sorted (· < ·) →
      (∀ x ∈ l, prev < x) →
      (tgt ≤ prev → walkBack S tgt ≤ longest) →
      walkBack S tgt ≤ streakGo l prev (walkBack S prev) longest := by
  intro l
  induction l with
  | nil =>
    intro prev longest _ hcover _ _ hdone
    rcases hcover tgt htgt with h | h
    · exact hdone h
    · simp at h
  | cons a rest ih =>
    intro prev longest hmem hcover hsort hgt hdone
    have haS : a ∈ S := hmem a (List.mem_cons_self a rest)
    have hprevlt : prev < a := hgt a (List.mem_cons_self a rest)
    have hrestgt : ∀ x ∈ rest, a < x := (List.sorted_cons.mp hsort).1
    have hrestsort : rest.Sorted (· < ·) := (List.sorted_cons.mp hsort).2
    have hcur : (if a - prev = 1 then walkBack S prev + 1 else 1) = walkBack S a := by
      by_cases hd : a - prev = 1
      · rw [if_pos hd, walkBack_of_mem haS]
        have hp : a - 1 = prev := by omega
        rw [hp]
        omega
      · rw [if_neg hd, walkBack_of_mem haS]
        have hnot : a - 1 ∉ S := by
          intro hmem1
          rcases hcover (a - 1) hmem1 with h | h
          · omega
          · rcases List.mem_cons.mp h with h1 | h1
            · omega
            · have := hrestgt _ h1
              omega
        rw [walkBack_of_not_mem hnot]
    have happlied := ih a (max longest (if a - prev = 1 then walkBack S prev + 1 else 1))
      (fun x hx => hmem x (List.mem_cons_of_mem a hx))
      (fun x hxS => by
        rcases hcover x hxS with h | h
        · exact Or.inl (le_trans h hprevlt.le)
        · rcases List.mem_cons.mp h with h1 | h1
          · exact Or.inl (le_of_eq h1)
          · exact Or.inr h1)
      hrestsort
      hrestgt
      (fun hle => by
        by_cases hp : tgt ≤ prev
        · exact le_trans (hdone hp) (le_max_left _ _)
        · have htin : tgt ∈ a :: rest := by
            rcases hcover tgt htgt with h | h
            · omega
            · exact h
          rcases List.mem_cons.mp htin with h1 | h1
          · subst h1
            rw [← hcur]
            exact le_max_right _ _
          · have := hrestgt _ h1
            omega)
    rw [← hcur] at happlied
    simpa only [streakGo] using happlied

/-- Every backward run of active days is dominated by the longest streak. -/
theorem walkBack_le_longest_streak (S : Finset ℤ) (d : ℤ) (hd : d ∈ S) :
    walkBack S d ≤ longest_streak S := by
  unfold longest_streak
  cases hsort : S.sort (· ≤ ·) with
  | nil =>
    exfalso
    have hmem : d ∈ S.sort (· ≤ ·) := (Finset.mem_sort _).mpr hd
    rw [hsort] at hmem
    simp at hmem
  | cons a rest =>
    have hsorted : (a :: rest).Sorted (· < ·) := by
      rw [← hsort]
      exact Finset.sort_sorted_lt S
    have hmemiff : ∀ x, x ∈ a :: rest ↔ x ∈ S := by
      intro x
      rw [← hsort]
      exact Finset.mem_sort _
    have haS : a ∈ S := (hmemiff a).mp (List.mem_cons_self a rest)
    have hmin : ∀ x ∈ S, a ≤ x := by
      intro x hx
      rcases List.mem_cons.mp ((hmemiff x).mpr hx) with h | h
      · exact le_of_eq h.symm
      · exact le_of_lt ((List.sorted_cons.mp hsorted).1 x h)
    have hwa : walkBack S a = 1 := by
      rw [walkBack_of_mem haS]
      have hnot : a - 1 ∉ S := fun hmem1 => by
        have := hmin _ hmem1
        omega
      rw [walkBack_of_not_mem hnot]
    have hmain := streakGo_ge S d hd rest a 1
      (fun x hx => (hmemiff x).mp (List.mem_cons_of_mem a hx))
      (fun x hxS => by
        rcases List.mem_cons.mp ((hmemiff x).mpr hxS) with h | h
        · exact Or.inl (le_of_eq h)
        · exact Or.inr h)
      (List.sorted_cons.mp hsorted).2
      (fun x hx => (List.sorted_cons.mp hsorted).1 x hx)
      (fun hle => by
        have h1 : a ≤ d := hmin d hd
        have h2 : d = a := le_antisymm hle h1
        rw [h2, hwa])
    rw [hwa] at hmain
    exact hmain

/-- C8: for every set of active days and every reference day used as today,
the longest streak dominates the current streak: the current streak is a
backward run of consecutive active days, and every such run is counted by
the longest-streak fold over the sorted active dates. -/
theorem c8_theorem (S : Finset ℤ) (today : ℤ) :
    current_streak S today ≤ longest_streak S := by
  unfold current_streak
  by_cases h : (if today ∈ S then today else today - 1) ∈ S
  · exact walkBack_le_longest_streak S _ h
  · rw [walkBack_of_not_mem h]
    exact Nat.zero_le _

/-- Local hour of a timestamp (the `strftime('%H', ..., 'localtime')` bucket,
embedded for a fixed zero offset; the claims below only rely on the
empty-input default). -/
def hourOf (ts : ℤ) : ℕ := ((ts / 3600) % 24).toNat

/-- Number of messages in a given hour bucket. -/
def hourCounts (msgs : List Msg) (h : ℕ) : ℕ :=
  (msgs.filter (fun m => decide (hourOf m.ts = h))).length

/-- `d['hour']`: hour with the highest count, `12` when the window has no
messages (the SQL returns no rows); SQLite leaves the tie order
unspecified, the embedding takes the smallest hour of maximal count. -/
def peakHour (msgs : List Msg) : ℕ :=
  if msgs.isEmpty then 12
  else (List.range 24).foldl
    (fun best h => if hourCounts msgs best < hourCounts msgs h then h else best) 0

/-- Sent-message count over the one-to-one conversations (`d['stats'][1]`,
with the NULL-to-0 coalescing of the empty window). -/
def sentCount (convs : List (List Msg)) : ℕ :=
  (convs.flatten.filter (fun m => m.fromMe)).length

/-- Received-message count over the one-to-one conversations
(`d['stats'][2]`). -/
def recvCount (convs : List (List Msg)) : ℕ :=
  (convs.flatten.filter (fun m => !m.fromMe)).length

/-- The personality input `ratio = s[1] / (s[2] + 1)`. -/
def overallRatio (convs : List (List Msg)) : ℚ :=
  (sentCount convs : ℚ) / ((recvCount convs : ℚ) + 1)

/-- The personality stage of `analyze`, wired to the computed peak hour,
response time, overall ratio and starter percentage. -/
def analyze_personality (allMsgs : List Msg) (convs : List (List Msg)) :
    String × String :=
  personality (peakHour allMsgs) (resp_minutes convs) (overallRatio convs)
    (starter_pct convs)

/-- C10: on an empty window the peak hour defaults to 12, the response time
to 30 minutes, the ratio to 0 and the starter percentage to 50, so the
decision list falls through rules 1-3 and stops at rule 4,
POPULAR (ALLEGEDLY). -/
theorem c10_theorem :
    peakHour [] = 12 ∧ resp_minutes [] = 30 ∧ overallRatio [] = 0 ∧
      starter_pct [] = 50 ∧
      analyze_personality [] [] =
        ("POPULAR (ALLEGEDLY)", "everyone wants a piece") := by
  have h1 : peakHour [] = 12 := by simp [peakHour]
  have h2 : resp_minutes [] = 30 := by simp [resp_minutes, allGaps]
  have h3 : overallRatio [] = 0 := by
    simp [overallRatio, sentCount, recvCount]
  have h4 : starter_pct [] = 50 := by simp [starter_pct, allOpeners]
  refine ⟨h1, h2, h3, h4, ?_⟩
  rw [analyze_personality, h1, h2, h3, h4]
  unfold personality
  norm_num
